import Mathlib

/-!
Shallow embedding of the delegate / observer library in
`Observer_MetaProgramming/DelegateInstance.{h,cpp}`.

Modelling conventions:
* The call signature is instantiated at `RetType = Nat`, `Args = List Nat`
  (the library is a template over one signature; the claims are signature
  independent, so one representative instantiation is embedded).
* Pointers and object identities are `Nat`; a nullable pointer is
  `Option Nat` (`none` = `nullptr`).
* The set of currently live objects (targets of `std::weak_ptr`) is a
  `List Nat` of ids; `Weak.expired()` is "target not in the list".
* The process-wide atomic counter `GDelegateNextID` is threaded explicitly
  as a `Nat` field of `World`.
* `std::function` emptiness / a null function pointer is `Option Nat`:
  the `Nat` is an id of the underlying callable.
* Invoking a callable is observable: executions return, besides the
  `RetType` value, an `Option` invocation record, and `Broadcast` returns
  the list of performed invocations (the trace).  The behaviour of a
  handler body is a parameter: `sem` gives the value a callable returns,
  `eff` gives the state mutation a callable performs on the world
  (handlers may re-enter the multicast delegate's API).
-/

namespace Delegates

-- ======================= Handle =======================

/-- Embeds `FDelegateHandle`: wraps the 64-bit `DelegateID`; `0` is the invalid
sentinel (default constructor). -/
structure FDelegateHandle where
  DelegateID : Nat
deriving DecidableEq, Repr

/-- Embeds `FDelegateHandle::IsValid`. -/
def FDelegateHandle.IsValid (h : FDelegateHandle) : Bool :=
  h.DelegateID != 0

/-- Initial value of the global counter `GDelegateNextID` (constructed
with `1` in `DelegateInstance.cpp`). -/
def GDelegateNextID_init : Nat := 1

/-- Embeds `FDelegateHandle::GenerateNewID`: `fetch_add(1)` on the global
counter.  Returns the fresh id and the new counter value. -/
def GenerateNewID (counter : Nat) : Nat × Nat :=
  (counter, counter + 1)

-- ==================== Binding instances ====================

/-- The four concrete `TDelegateInstanceBase` subclasses and the data each
one stores (besides its handle).  `none` models a null pointer / empty
`std::function`. -/
inductive InstanceKind
  /-- Embeds `TStaticDelegateInstance`: a free-function pointer. -/
  | static (func : Option Nat)
  /-- Embeds `TRawDelegateInstance`: unchecked object pointer + member pointer. -/
  | raw (classPtr : Option Nat) (method : Option Nat)
  /-- Embeds `TWeakDelegateInstance`: weak reference to object `target` + member
  pointer. -/
  | weak (target : Nat) (method : Option Nat)
  /-- Embeds `TLambdaDelegateInstance`: an owned `std::function` value. -/
  | lambda (fn : Option Nat)
deriving DecidableEq, Repr

/-- One constructed delegate instance: its kind-specific data and the
`FDelegateHandle` assigned at construction. -/
structure InstanceBase where
  kind : InstanceKind
  Handle : FDelegateHandle
deriving DecidableEq, Repr

/-- Embeds `IsSafeToExecute`, per variant:
static: `Func != nullptr`; raw: `ClassPtr != nullptr && Method != nullptr`;
weak: `!Weak.expired() && Method != nullptr`; lambda: the `std::function`
holds a callable. -/
def InstanceBase.IsSafeToExecute (i : InstanceBase) (alive : List Nat) : Bool :=
  match i.kind with
  | .static func => func.isSome
  | .raw classPtr method => classPtr.isSome && method.isSome
  | .weak target method => alive.contains target && method.isSome
  | .lambda fn => fn.isSome

/-- Embeds `IDelegateInstance::IsCompactable`: default `!IsSafeToExecute()`. -/
def InstanceBase.IsCompactable (i : InstanceBase) (alive : List Nat) : Bool :=
  !(i.IsSafeToExecute alive)

/-- An invocation record: which callable ran, with which argument list. -/
abbrev Invocation := InstanceKind × List Nat

/-- Embeds `Execute(Args...)`: calls the stored callable (the `assert` on
`IsSafeToExecute` is a diagnostic precondition, not part of the value
semantics).  Returns the callable's result under `sem` together with the
record of the performed invocation. -/
def InstanceBase.Execute (sem : InstanceKind → List Nat → Nat)
    (i : InstanceBase) (args : List Nat) : Nat × Option Invocation :=
  (sem i.kind args, some (i.kind, args))

/-- Embeds `ExecuteIfSafe(Args...)`, embedded per variant exactly as written:
the static and raw variants test `IsCompactable()`, the weak and lambda
variants test `!IsSafeToExecute()`; in the guarded case a
value-initialized `RetType{}` (here `0`) is returned and nothing is
invoked. -/
def InstanceBase.ExecuteIfSafe (sem : InstanceKind → List Nat → Nat)
    (i : InstanceBase) (alive : List Nat) (args : List Nat) :
    Nat × Option Invocation :=
  match i.kind with
  | .static _ =>
      if i.IsCompactable alive then (0, none)
      else (sem i.kind args, some (i.kind, args))
  | .raw _ _ =>
      if i.IsCompactable alive then (0, none)
      else i.Execute sem args
  | .weak _ _ =>
      if !(i.IsSafeToExecute alive) then (0, none)
      else i.Execute sem args
  | .lambda _ =>
      if !(i.IsSafeToExecute alive) then (0, none)
      else i.Execute sem args

-- ============================ TDelegate (unicast) ============================

/-- Embeds `TDelegate<RetType(ArgsType...)>`: holds zero or one instance
(`std::shared_ptr<InstanceBase> Instance`). -/
structure TDelegate where
  Instance : Option InstanceBase
deriving DecidableEq, Repr

/-- Embeds `TDelegate::IsBound`: `Instance != nullptr && Instance->IsSafeToExecute()`. -/
def TDelegate.IsBound (d : TDelegate) (alive : List Nat) : Bool :=
  match d.Instance with
  | none => false
  | some i => i.IsSafeToExecute alive

/-- Embeds `TDelegate::Unbind`: `Instance.reset()`. -/
def TDelegate.Unbind (_d : TDelegate) : TDelegate :=
  ⟨none⟩

/-- Embeds `TDelegate::GetHandle`: `Instance ? Instance->GetHandle() : FDelegateHandle{}`. -/
def TDelegate.GetHandle (d : TDelegate) : FDelegateHandle :=
  match d.Instance with
  | none => ⟨0⟩
  | some i => i.Handle

/-- Embeds `TDelegate::ExecuteIfBound`: default `RetType{}` and no invocation
when `!IsBound()`, else `Instance->Execute(args)`. -/
def TDelegate.ExecuteIfBound (sem : InstanceKind → List Nat → Nat)
    (d : TDelegate) (alive : List Nat) (args : List Nat) :
    Nat × Option Invocation :=
  if !(d.IsBound alive) then (0, none)
  else
    match d.Instance with
    | some i => i.Execute sem args
    | none => (0, none)

-- ======================= TMulticastDelegate =======================

/-- Embeds `TMulticastDelegate::FEntry`: handle, unicast delegate, owner tag
(`void* Owner`, `none` = `nullptr`). -/
structure FEntry where
  Handle : FDelegateHandle
  Delegate : TDelegate
  Owner : Option Nat
deriving DecidableEq, Repr

/-- Embeds `TMulticastDelegate<RetType(ArgsType...)>`: the ordered entry vector. -/
structure TMulticastDelegate where
  Entries : List FEntry
deriving DecidableEq, Repr

/-- Embeds `TMulticastDelegate::IsBound`: `!Entries.empty()`. -/
def TMulticastDelegate.IsBound (m : TMulticastDelegate) : Bool :=
  !m.Entries.isEmpty

/-- Embeds `TMulticastDelegate::Clear`: `Entries.clear()`. -/
def TMulticastDelegate.Clear (_m : TMulticastDelegate) : TMulticastDelegate :=
  ⟨[]⟩

/-- The `find_if` + `erase` in `TMulticastDelegate::Remove`: drop the
first entry whose handle matches, keep everything else. -/
def removeFirstEntry (h : FDelegateHandle) : List FEntry → List FEntry
  | [] => []
  | e :: rest => if e.Handle = h then rest else e :: removeFirstEntry h rest

/-- Embeds `TMulticastDelegate::Remove(InHandle)`. -/
def TMulticastDelegate.Remove (m : TMulticastDelegate) (h : FDelegateHandle) :
    TMulticastDelegate :=
  ⟨removeFirstEntry h m.Entries⟩

/-- Embeds `TMulticastDelegate::RemoveAll(InOwner)`: `if (!InOwner) return;`
then erase-remove of every entry whose `Owner` equals `InOwner`. -/
def TMulticastDelegate.RemoveAll (m : TMulticastDelegate) (owner : Option Nat) :
    TMulticastDelegate :=
  match owner with
  | none => m
  | some o => ⟨m.Entries.filter (fun e => e.Owner ≠ some o)⟩

/-- Embeds `TMulticastDelegate::AddInternal`: take the bound unicast's handle,
regenerate if invalid, append the entry, return the handle (with the
updated multicast state and counter). -/
def TMulticastDelegate.AddInternal (m : TMulticastDelegate) (d : TDelegate)
    (owner : Option Nat) (counter : Nat) :
    FDelegateHandle × TMulticastDelegate × Nat :=
  let h0 := d.GetHandle
  let hc := if h0.IsValid then (h0, counter)
            else (⟨(GenerateNewID counter).1⟩, (GenerateNewID counter).2)
  let entry : FEntry := ⟨hc.1, d, owner⟩
  (hc.1, ⟨m.Entries ++ [entry]⟩, hc.2)

-- ======================= World state and Broadcast =======================

/-- The state a multicast delegate's operations act on: the global handle
counter `GDelegateNextID`, the set of live weak-target objects, and the
multicast delegate itself. -/
structure World where
  counter : Nat
  alive : List Nat
  mc : TMulticastDelegate
deriving DecidableEq, Repr

/-- A handler environment: the state mutation the callable identified by
an `InstanceKind` performs when invoked with an argument list (handlers
may re-enter the delegate API, destroy objects, etc.). -/
abbrev Eff := InstanceKind → List Nat → World → World

/-- The handler environment of passive handlers: no handler mutates any
state. -/
def pureEff : Eff := fun _ _ w => w

/-- The dispatch loop of `TMulticastDelegate::Broadcast`: iterate the
snapshot, calling `Entry.Delegate.ExecuteIfBound(Args...)` on each entry
(its guard is `IsBound`, evaluated against the world at that point of the
pass); record each performed invocation as `(entry, args)`.  The snapshot
shares each entry's instance with the live vector (the vector copy copies
the `shared_ptr`), and an instance is immutable after construction, so a
snapshot entry's bind state is the value stored here plus the current
`alive` set. -/
def broadcastLoop (eff : Eff) (args : List Nat) :
    List FEntry → World → World × List (FEntry × List Nat)
  | [], w => (w, [])
  | e :: rest, w =>
      if e.Delegate.IsBound w.alive then
        match e.Delegate.Instance with
        | some i =>
            let r := broadcastLoop eff args rest (eff i.kind args w)
            (r.1, (e, args) :: r.2)
        | none => broadcastLoop eff args rest w
      else
        broadcastLoop eff args rest w

/-- Embeds `TMulticastDelegate::Broadcast(Args...)`: early return on an empty
entry vector; otherwise snapshot the entries, dispatch over the snapshot,
then compact the *current live* entries (erase-remove of every entry
whose unicast is no longer bound, against the post-dispatch world). -/
def Broadcast (eff : Eff) (args : List Nat) (w : World) :
    World × List (FEntry × List Nat) :=
  if w.mc.Entries.isEmpty then (w, [])
  else
    let snapshot := w.mc.Entries
    let r := broadcastLoop eff args snapshot w
    let w1 := r.1
    ({ w1 with
        mc := ⟨w1.mc.Entries.filter (fun e => e.Delegate.IsBound w1.alive)⟩ },
     r.2)

-- ======================= Add operations on the world =======================

/-- Embeds `TMulticastDelegate::AddStatic`: bind a static instance (fresh handle
from the global counter), add with a null owner. -/
def World.AddStatic (w : World) (fn : Option Nat) : FDelegateHandle × World :=
  let g := GenerateNewID w.counter
  let d : TDelegate := ⟨some ⟨.static fn, ⟨g.1⟩⟩⟩
  let r := w.mc.AddInternal d none g.2
  (r.1, ⟨r.2.2, w.alive, r.2.1⟩)

/-- Embeds `TMulticastDelegate::AddRaw`: bind a raw instance; the owner tag is
the object pointer itself. -/
def World.AddRaw (w : World) (classPtr : Option Nat) (method : Option Nat) :
    FDelegateHandle × World :=
  let g := GenerateNewID w.counter
  let d : TDelegate := ⟨some ⟨.raw classPtr method, ⟨g.1⟩⟩⟩
  let r := w.mc.AddInternal d classPtr g.2
  (r.1, ⟨r.2.2, w.alive, r.2.1⟩)

/-- Embeds `TMulticastDelegate::AddWeak`: bind a weak instance, null owner. -/
def World.AddWeak (w : World) (target : Nat) (method : Option Nat) :
    FDelegateHandle × World :=
  let g := GenerateNewID w.counter
  let d : TDelegate := ⟨some ⟨.weak target method, ⟨g.1⟩⟩⟩
  let r := w.mc.AddInternal d none g.2
  (r.1, ⟨r.2.2, w.alive, r.2.1⟩)

/-- Embeds `TMulticastDelegate::AddLambda`: bind a lambda instance, null owner. -/
def World.AddLambda (w : World) (fn : Option Nat) : FDelegateHandle × World :=
  let g := GenerateNewID w.counter
  let d : TDelegate := ⟨some ⟨.lambda fn, ⟨g.1⟩⟩⟩
  let r := w.mc.AddInternal d none g.2
  (r.1, ⟨r.2.2, w.alive, r.2.1⟩)

-- ======================= Reachable states =======================

/-- One client-visible operation on a world holding a multicast delegate.
`destroy` models the external destruction of a weak-target object;
`broadcast` dispatches with passive handlers (a handler body's own
mutations are covered by interleaving the other operations, and the
compaction pass of a re-entered broadcast coincides with `broadcast`'s). -/
inductive Op
  | addStatic (fn : Option Nat)
  | addRaw (classPtr : Option Nat) (method : Option Nat)
  | addWeak (target : Nat) (method : Option Nat)
  | addLambda (fn : Option Nat)
  | remove (h : FDelegateHandle)
  | removeAll (owner : Option Nat)
  | clear
  | destroy (obj : Nat)
  | broadcast (args : List Nat)

/-- Apply one operation to the world. -/
def applyOp (w : World) : Op → World
  | .addStatic fn => (w.AddStatic fn).2
  | .addRaw c m => (w.AddRaw c m).2
  | .addWeak t m => (w.AddWeak t m).2
  | .addLambda f => (w.AddLambda f).2
  | .remove h => { w with mc := w.mc.Remove h }
  | .removeAll o => { w with mc := w.mc.RemoveAll o }
  | .clear => { w with mc := w.mc.Clear }
  | .destroy o => { w with alive := w.alive.filter (fun x => x ≠ o) }
  | .broadcast args => (Broadcast pureEff args w).1

/-- A freshly constructed program state: counter at its initial value
`1`, any set of live objects, an empty multicast delegate. -/
def initWorld (alive0 : List Nat) : World :=
  ⟨GDelegateNextID_init, alive0, ⟨[]⟩⟩

/-- The worlds reachable from a fresh state by client operations. -/
inductive Reachable : World → Prop
  | init (alive0 : List Nat) : Reachable (initWorld alive0)
  | step (w : World) (op : Op) : Reachable w → Reachable (applyOp w op)

-- ======================= Concrete fixtures =======================

/-- A world with no registrations at all. -/
def emptyWorld : World := ⟨1, [], ⟨[]⟩⟩

/-- A unicast delegate weak-bound to object `4` (method id `2`, handle
`5`); used against an `alive` set that does not contain `4`. -/
def deadWeakDelegate : TDelegate := ⟨some ⟨.weak 4 (some 2), ⟨5⟩⟩⟩

/-- A trivial result semantics for witnesses: every callable returns `0`. -/
def semZero : InstanceKind → List Nat → Nat := fun _ _ => 0

/-- First entry of the reentrancy fixture: raw-bound to object `5`
(method `10`), owner tag `5`. -/
def ownerOneEntry : FEntry := ⟨⟨1⟩, ⟨some ⟨.raw (some 5) (some 10), ⟨1⟩⟩⟩, some 5⟩

/-- Second entry of the reentrancy fixture: raw-bound to object `5`
(method `11`), owner tag `5`. -/
def ownerTwoEntry : FEntry := ⟨⟨2⟩, ⟨some ⟨.raw (some 5) (some 11), ⟨2⟩⟩⟩, some 5⟩

/-- A multicast delegate holding two entries registered under owner tag
`5`. -/
def selfRemoveWorld : World := ⟨3, [], ⟨[ownerOneEntry, ownerTwoEntry]⟩⟩

/-- Handler environment in which the first entry's handler (method `10`
of object `5`) calls `RemoveAll` with its own owner tag `5`; every other
handler is passive. -/
def selfRemoveEff : Eff := fun k _ w =>
  if k = .raw (some 5) (some 10) then { w with mc := w.mc.RemoveAll (some 5) }
  else w

/-- Fixture entry for the dead-weak scenario: weak-bound to the dead
object `4`. -/
def deadWeakEntry : FEntry := ⟨⟨6⟩, deadWeakDelegate, none⟩

/-- Fixture entry for the dead-weak scenario: a safe static entry. -/
def liveStaticEntry : FEntry := ⟨⟨7⟩, ⟨some ⟨.static (some 9), ⟨7⟩⟩⟩, none⟩

/-- Fixture world for the dead-weak scenario: object `4` is dead, object
`8` is alive. -/
def deadWeakWorld : World := ⟨8, [8], ⟨[deadWeakEntry, liveStaticEntry]⟩⟩

/-- The handle well-formedness invariant: the global counter is at least
its initial value, every stored handle was generated (non-zero and below
the counter), and the handles in the multicast delegate are pairwise
distinct. -/
def HandlesOK (w : World) : Prop :=
  1 ≤ w.counter ∧
  (∀ e ∈ w.mc.Entries,
    1 ≤ e.Handle.DelegateID ∧ e.Handle.DelegateID < w.counter) ∧
  w.mc.Entries.Pairwise (fun a b => a.Handle ≠ b.Handle)

-- ======================= Dispatch-loop lemmas =======================

/-- If every handler leaves the live-object set unchanged, the dispatch
loop preserves the live-object set and its trace is exactly the bound
prefix-filtered snapshot, in snapshot order, each with the given
arguments. -/
lemma broadcastLoop_trace_filter (eff : Eff) (args : List Nat)
    (halive : ∀ k a v, (eff k a v).alive = v.alive)
    (l : List FEntry) : ∀ w : World,
    ((broadcastLoop eff args l w).1).alive = w.alive ∧
    (broadcastLoop eff args l w).2 =
      (l.filter (fun e => e.Delegate.IsBound w.alive)).map
        (fun e => (e, args)) := by
  induction l with
  | nil => intro w; simp [broadcastLoop]
  | cons e rest ih =>
      intro w
      rcases hi : e.Delegate.Instance with _ | i
      · have hb : e.Delegate.IsBound w.alive = false := by
          simp [TDelegate.IsBound, hi]
        simp [broadcastLoop, hb, hi, List.filter_cons, (ih w).1, (ih w).2]
      · by_cases hb : e.Delegate.IsBound w.alive
        · have h1 := ih (eff i.kind args w)
          have ha := halive i.kind args w
          simp [broadcastLoop, hb, hi, List.filter_cons, h1.1, h1.2, ha]
        · simp [broadcastLoop, hb, hi, List.filter_cons, (ih w).1, (ih w).2]

/-- With passive handlers the dispatch loop leaves the world untouched. -/
lemma broadcastLoop_pureEff_fst (args : List Nat) (l : List FEntry) :
    ∀ w : World, (broadcastLoop pureEff args l w).1 = w := by
  induction l with
  | nil => intro w; rfl
  | cons e rest ih =>
      intro w
      rcases hi : e.Delegate.Instance with _ | i
      · have hb : e.Delegate.IsBound w.alive = false := by
          simp [TDelegate.IsBound, hi]
        simp [broadcastLoop, hb, ih w]
      · by_cases hb : e.Delegate.IsBound w.alive
        · simp [broadcastLoop, hb, hi, pureEff, ih w]
        · simp [broadcastLoop, hb, ih w]

/-- Liveness-preserving handlers: `Broadcast`'s trace is the bound
entries of the snapshot, in order, each invoked once with the broadcast
arguments. -/
lemma Broadcast_trace_filter (eff : Eff) (args : List Nat) (w : World)
    (halive : ∀ k a v, (eff k a v).alive = v.alive) :
    (Broadcast eff args w).2 =
      (w.mc.Entries.filter (fun e => e.Delegate.IsBound w.alive)).map
        (fun e => (e, args)) := by
  by_cases he : w.mc.Entries.isEmpty
  · have h0 : w.mc.Entries = [] := by simpa [List.isEmpty_iff] using he
    simp [Broadcast, he, h0]
  · simp only [Broadcast, he, Bool.false_eq_true, if_false]
    exact (broadcastLoop_trace_filter eff args halive w.mc.Entries w).2

/-- With passive handlers `Broadcast` is exactly: trace the bound
entries, then compact the entry vector against the unchanged world. -/
lemma Broadcast_pureEff_eq (args : List Nat) (w : World) :
    Broadcast pureEff args w =
      ({ w with
          mc := ⟨w.mc.Entries.filter (fun e => e.Delegate.IsBound w.alive)⟩ },
       (w.mc.Entries.filter (fun e => e.Delegate.IsBound w.alive)).map
         (fun e => (e, args))) := by
  by_cases he : w.mc.Entries.isEmpty
  · have h0 : w.mc.Entries = [] := by simpa [List.isEmpty_iff] using he
    obtain ⟨cnt, al, ⟨es⟩⟩ := w
    simp_all [Broadcast]
  · simp only [Broadcast, he, Bool.false_eq_true, if_false]
    have h1 := broadcastLoop_pureEff_fst args w.mc.Entries w
    have h2 := (broadcastLoop_trace_filter pureEff args
      (fun _ _ _ => rfl) w.mc.Entries w).2
    simp only [h1, h2]

/-- If a fixed entry stays bound under every handler effect, and it is
bound when its turn comes, the dispatch loop invokes it. -/
lemma broadcastLoop_mem_of_bound (eff : Eff) (args : List Nat) (e : FEntry)
    (hkeep : ∀ k a v, e.Delegate.IsBound v.alive = true →
        e.Delegate.IsBound (eff k a v).alive = true)
    (l : List FEntry) : ∀ w : World, e ∈ l →
    e.Delegate.IsBound w.alive = true →
    (e, args) ∈ (broadcastLoop eff args l w).2 := by
  induction l with
  | nil => intro w hmem; cases hmem
  | cons x rest ih =>
      intro w hmem hb
      rcases List.mem_cons.mp hmem with rfl | hmem2
      · have hex : ∃ i, e.Delegate.Instance = some i := by
          cases hi0 : e.Delegate.Instance with
          | none => simp [TDelegate.IsBound, hi0] at hb
          | some i => exact ⟨i, rfl⟩
        obtain ⟨i, hi⟩ := hex
        simp [broadcastLoop, hb, hi]
      · rcases hi : x.Delegate.Instance with _ | i
        · have hxb : x.Delegate.IsBound w.alive = false := by
            simp [TDelegate.IsBound, hi]
          simp only [broadcastLoop, hxb, Bool.false_eq_true, if_false]
          exact ih w hmem2 hb
        · by_cases hxb : x.Delegate.IsBound w.alive
          · have hb2 := hkeep i.kind args w hb
            simp only [broadcastLoop, hxb, if_true, hi]
            exact List.mem_cons_of_mem _ (ih (eff i.kind args w) hmem2 hb2)
          · simp only [broadcastLoop, Bool.not_eq_true] at hxb
            simp only [broadcastLoop, hxb, Bool.false_eq_true, if_false]
            exact ih w hmem2 hb

-- ======================= Handle invariants =======================

/-- Evaluates `AddInternal` on a freshly bound instance (handle = current counter
value, which is valid because the counter is positive). -/
lemma addInternal_fresh (m : TMulticastDelegate) (k : InstanceKind)
    (owner : Option Nat) (c : Nat) (h1 : 1 ≤ c) :
    m.AddInternal ⟨some ⟨k, ⟨c⟩⟩⟩ owner (c + 1) =
      (⟨c⟩, ⟨m.Entries ++ [⟨⟨c⟩, ⟨some ⟨k, ⟨c⟩⟩⟩, owner⟩]⟩, c + 1) := by
  have hv : FDelegateHandle.IsValid ⟨c⟩ = true := by
    simp only [FDelegateHandle.IsValid, bne_iff_ne, ne_eq]
    omega
  simp [TMulticastDelegate.AddInternal, TDelegate.GetHandle, hv]

/-- Appending a freshly generated entry preserves the handle invariant. -/
lemma handlesOK_append_fresh (w : World) (k : InstanceKind)
    (owner : Option Nat) (hOK : HandlesOK w) :
    HandlesOK ⟨w.counter + 1, w.alive,
      ⟨w.mc.Entries ++ [⟨⟨w.counter⟩, ⟨some ⟨k, ⟨w.counter⟩⟩⟩, owner⟩]⟩⟩ := by
  obtain ⟨h1, hbound, hpair⟩ := hOK
  refine ⟨?_, ?_, ?_⟩
  · show 1 ≤ w.counter + 1
    omega
  · intro e he
    rcases List.mem_append.mp he with h | h
    · exact ⟨(hbound e h).1, Nat.lt_succ_of_lt (hbound e h).2⟩
    · have he2 := List.mem_singleton.mp h
      subst he2
      exact ⟨h1, Nat.lt_succ_self _⟩
  · rw [List.pairwise_append]
    refine ⟨hpair, List.pairwise_singleton _ _, ?_⟩
    intro a ha b hb
    have hb2 := List.mem_singleton.mp hb
    subst hb2
    intro hEq
    have h2 := (hbound a ha).2
    rw [hEq] at h2
    exact absurd h2 (lt_irrefl _)

/-- Shrinking the entry vector to a sublist (and arbitrarily changing the
live set) preserves the handle invariant. -/
lemma handlesOK_sublist (w : World) (l : List FEntry) (al : List Nat)
    (hOK : HandlesOK w) (hsub : List.Sublist l w.mc.Entries) :
    HandlesOK ⟨w.counter, al, ⟨l⟩⟩ := by
  obtain ⟨h1, hbound, hpair⟩ := hOK
  exact ⟨h1, fun e he => hbound e (hsub.subset he), hpair.sublist hsub⟩

/-- The function `removeFirstEntry` yields a sublist of the original entry vector. -/
lemma removeFirstEntry_sublist (h : FDelegateHandle) (l : List FEntry) :
    List.Sublist (removeFirstEntry h l) l := by
  induction l with
  | nil => simp [removeFirstEntry]
  | cons e rest ih =>
      by_cases he : e.Handle = h
      · rw [removeFirstEntry, if_pos he]
        exact (List.Sublist.refl rest).cons e
      · rw [removeFirstEntry, if_neg he]
        exact ih.cons₂ e

/-- Every reachable world satisfies the handle invariant: in particular
the handles stored in the multicast delegate are pairwise distinct. -/
lemma reachable_handlesOK {w : World} (h : Reachable w) : HandlesOK w := by
  induction h with
  | init alive0 =>
      exact ⟨le_refl 1, by simp [initWorld], by simp [initWorld]⟩
  | step w op hR ih =>
      cases op with
      | addStatic fn =>
          show HandlesOK (w.AddStatic fn).2
          have he := addInternal_fresh w.mc (.static fn) none w.counter ih.1
          simp only [World.AddStatic, GenerateNewID, he]
          exact handlesOK_append_fresh w (.static fn) none ih
      | addRaw c m =>
          show HandlesOK (w.AddRaw c m).2
          have he := addInternal_fresh w.mc (.raw c m) c w.counter ih.1
          simp only [World.AddRaw, GenerateNewID, he]
          exact handlesOK_append_fresh w (.raw c m) c ih
      | addWeak t m =>
          show HandlesOK (w.AddWeak t m).2
          have he := addInternal_fresh w.mc (.weak t m) none w.counter ih.1
          simp only [World.AddWeak, GenerateNewID, he]
          exact handlesOK_append_fresh w (.weak t m) none ih
      | addLambda f =>
          show HandlesOK (w.AddLambda f).2
          have he := addInternal_fresh w.mc (.lambda f) none w.counter ih.1
          simp only [World.AddLambda, GenerateNewID, he]
          exact handlesOK_append_fresh w (.lambda f) none ih
      | remove h =>
          exact handlesOK_sublist w _ w.alive ih
            (removeFirstEntry_sublist h w.mc.Entries)
      | removeAll o =>
          cases o with
          | none => exact ih
          | some o =>
              exact handlesOK_sublist w _ w.alive ih
                (List.filter_sublist w.mc.Entries)
      | clear =>
          exact handlesOK_sublist w [] w.alive ih (List.nil_sublist _)
      | destroy o =>
          exact handlesOK_sublist w _ _ ih (List.Sublist.refl _)
      | broadcast args =>
          show HandlesOK (Broadcast pureEff args w).1
          rw [Broadcast_pureEff_eq]
          exact handlesOK_sublist w _ w.alive ih
            (List.filter_sublist w.mc.Entries)

/-- If no entry of the list carries the handle, `removeFirstEntry` is the
identity. -/
lemma removeFirstEntry_no_match (h : FDelegateHandle) (l : List FEntry)
    (hnone : ∀ e ∈ l, e.Handle ≠ h) : removeFirstEntry h l = l := by
  induction l with
  | nil => rfl
  | cons e rest ih =>
      rw [removeFirstEntry, if_neg (hnone e (List.mem_cons_self e rest)),
        ih (fun x hx => hnone x (List.mem_cons_of_mem e hx))]

/-- On a list with pairwise-distinct handles, `removeFirstEntry` removes
exactly the unique matching entry, keeping everything else in place. -/
lemma removeFirstEntry_match (h : FDelegateHandle) (l : List FEntry)
    (hpair : l.Pairwise (fun a b => a.Handle ≠ b.Handle))
    (e : FEntry) (he : e ∈ l) (heq : e.Handle = h) :
    ∃ l1 l2, l = l1 ++ e :: l2 ∧ removeFirstEntry h l = l1 ++ l2 ∧
      (∀ x ∈ l1, x.Handle ≠ h) ∧ (∀ x ∈ l2, x.Handle ≠ h) := by
  induction l with
  | nil => cases he
  | cons a rest ih =>
      have hpr := List.pairwise_cons.mp hpair
      rcases List.mem_cons.mp he with rfl | hm
      · refine ⟨[], rest, by simp, ?_, by simp, ?_⟩
        · rw [removeFirstEntry, if_pos heq]
          rfl
        · intro x hx hxh
          exact hpr.1 x hx (heq.trans hxh.symm)
      · have ha : a.Handle ≠ h := fun hah =>
          hpr.1 e hm (hah.trans heq.symm)
        obtain ⟨l1, l2, hl, hr, hx1, hx2⟩ := ih hpr.2 hm
        refine ⟨a :: l1, l2, by rw [List.cons_append, hl], ?_, ?_, hx2⟩
        · rw [removeFirstEntry, if_neg ha, hr, List.cons_append]
        · intro x hx
          rcases List.mem_cons.mp hx with rfl | hx2m
          · exact ha
          · exact hx1 x hx2m

-- ======================= Claim theorems =======================

/-- C10: broadcasting a multicast delegate with an empty entry sequence
invokes no handler and leaves the world unchanged (`Broadcast` returns
before taking a snapshot or compacting). -/
theorem C10_broadcast_empty_noop (eff : Eff) (args : List Nat) (w : World)
    (h : w.mc.Entries = []) : Broadcast eff args w = (w, []) := by
  simp [Broadcast, h]

/-- Witness for C10 at the empty world. -/
theorem C10_broadcast_empty_noop_witness :
    Broadcast pureEff [7] emptyWorld = (emptyWorld, []) :=
  C10_broadcast_empty_noop pureEff [7] emptyWorld rfl

/-- C5: `RemoveAll` with a null owner tag changes nothing; with owner tag
`o` it keeps exactly the entries whose owner differs from `o`, as a
sublist of the original sequence (so the survivors keep their original
relative order). -/
theorem C5_removeAll_exact (m : TMulticastDelegate) (o : Nat) :
    m.RemoveAll none = m ∧
    List.Sublist (m.RemoveAll (some o)).Entries m.Entries ∧
    ∀ e, e ∈ (m.RemoveAll (some o)).Entries ↔
      e ∈ m.Entries ∧ e.Owner ≠ some o := by
  refine ⟨rfl, ?_, ?_⟩
  · exact List.filter_sublist m.Entries
  · intro e
    simp [TMulticastDelegate.RemoveAll, List.mem_filter]

/-- Witness for C5: removing with a null owner tag leaves a concrete
two-entry delegate unchanged. -/
theorem C5_removeAll_exact_witness :
    TMulticastDelegate.RemoveAll ⟨[ownerOneEntry, liveStaticEntry]⟩ none =
      (⟨[ownerOneEntry, liveStaticEntry]⟩ : TMulticastDelegate) :=
  (C5_removeAll_exact ⟨[ownerOneEntry, liveStaticEntry]⟩ 5).1

/-- C7 counterexample: a unicast delegate holding a weak binding whose
target object is destroyed is unbound (`IsBound` is false), yet
`GetHandle` still returns the instance's handle, not the invalid
sentinel `0` — the sentinel is returned only when no instance is held. -/
theorem C7_counterexample :
    deadWeakDelegate.IsBound [] = false ∧
    deadWeakDelegate.GetHandle ≠ ⟨0⟩ := by decide

/-- C7 (amended): `IsBound` holds exactly when an instance is present and
its safety predicate holds; `GetHandle` returns the held instance's
handle whenever an instance is present (bound or not), and the invalid
sentinel `0` exactly when no instance is held. -/
theorem C7_is_bound_get_handle (d : TDelegate) (alive : List Nat) :
    (d.IsBound alive = true ↔
      ∃ i, d.Instance = some i ∧ i.IsSafeToExecute alive = true) ∧
    (d.Instance = none → d.GetHandle = ⟨0⟩) ∧
    (∀ i, d.Instance = some i → d.GetHandle = i.Handle) := by
  refine ⟨?_, ?_, ?_⟩
  · cases hd : d.Instance with
    | none => simp [TDelegate.IsBound, hd]
    | some i => simp [TDelegate.IsBound, hd]
  · intro hd
    simp [TDelegate.GetHandle, hd]
  · intro i hd
    simp [TDelegate.GetHandle, hd]

/-- Witness for C7 (amended): the dead-weak delegate still reports its
instance's handle `5`. -/
theorem C7_is_bound_get_handle_witness :
    deadWeakDelegate.GetHandle = FDelegateHandle.mk 5 :=
  (C7_is_bound_get_handle deadWeakDelegate []).2.2 ⟨.weak 4 (some 2), ⟨5⟩⟩ rfl

/-- C8: for the unicast delegate and for every binding variant, the
guarded execution paths perform no invocation and return the
value-initialized default when the target is unbound/unsafe, and
otherwise produce exactly `Execute`'s result on the same arguments. -/
theorem C8_guarded_execution (sem : InstanceKind → List Nat → Nat)
    (alive : List Nat) (args : List Nat) :
    (∀ d : TDelegate, d.IsBound alive = false →
        d.ExecuteIfBound sem alive args = (0, none)) ∧
    (∀ (d : TDelegate) (i : InstanceBase), d.Instance = some i →
        d.IsBound alive = true →
        d.ExecuteIfBound sem alive args = i.Execute sem args) ∧
    (∀ i : InstanceBase, i.IsSafeToExecute alive = false →
        i.ExecuteIfSafe sem alive args = (0, none)) ∧
    (∀ i : InstanceBase, i.IsSafeToExecute alive = true →
        i.ExecuteIfSafe sem alive args = i.Execute sem args) := by
  refine ⟨?_, ?_, ?_, ?_⟩
  · intro d h
    simp [TDelegate.ExecuteIfBound, h]
  · intro d i hi hb
    simp [TDelegate.ExecuteIfBound, hb, hi]
  · rintro ⟨k, hdl⟩ h
    cases k <;>
      simp_all [InstanceBase.ExecuteIfSafe, InstanceBase.IsCompactable,
        InstanceBase.IsSafeToExecute, InstanceBase.Execute,
        Option.isSome_iff_ne_none]
  · rintro ⟨k, hdl⟩ h
    cases k <;>
      simp_all [InstanceBase.ExecuteIfSafe, InstanceBase.IsCompactable,
        InstanceBase.IsSafeToExecute, InstanceBase.Execute,
        Option.isSome_iff_ne_none]

/-- Witness for C8: an unbound unicast delegate yields the default result
and performs no invocation. -/
theorem C8_guarded_execution_witness :
    TDelegate.ExecuteIfBound semZero ⟨none⟩ [] [] = (0, none) :=
  (C8_guarded_execution semZero [] []).1 ⟨none⟩ rfl

/-- C1: with every entry currently safe and handlers that do not change
object liveness, `Broadcast` invokes each of the N entries exactly once,
in registration order, and every entry receives the same argument values:
the trace is precisely the entry list mapped to `(entry, args)`. -/
theorem C1_broadcast_in_order (w : World) (args : List Nat) (eff : Eff)
    (halive : ∀ k a v, (eff k a v).alive = v.alive)
    (hsafe : ∀ e ∈ w.mc.Entries, e.Delegate.IsBound w.alive = true) :
    (Broadcast eff args w).2 = w.mc.Entries.map (fun e => (e, args)) := by
  rw [Broadcast_trace_filter eff args w halive]
  congr 1
  exact List.filter_eq_self.mpr hsafe

/-- Witness for C1 on a two-entry delegate with passive handlers. -/
theorem C1_broadcast_in_order_witness :
    (Broadcast pureEff [7] selfRemoveWorld).2 =
      selfRemoveWorld.mc.Entries.map (fun e => (e, [7])) :=
  C1_broadcast_in_order selfRemoveWorld [7] pureEff (fun _ _ _ => rfl)
    (by decide)

/-- C2 counterexample: both entries carry owner tag `5`; the first
entry's handler calls `RemoveAll` for its own owner tag `5` during the
broadcast, yet the second owner-`5` entry is still invoked later in that
same pass (dispatch iterates the snapshot, and removal from the live
vector does not unbind the shared instance).  The pass runs to
completion and afterwards no owner-`5` entry remains. -/
theorem C2_counterexample :
    (Broadcast selfRemoveEff [7] selfRemoveWorld).2 =
      [(ownerOneEntry, [7]), (ownerTwoEntry, [7])] ∧
    (Broadcast selfRemoveEff [7] selfRemoveWorld).1.mc.Entries = [] := by
  constructor <;> rfl

/-- C2 (amended): a handler that calls `remove_all` for its own owner tag
during `broadcast` does not stop the pass: the pass runs to completion
over the snapshot, and every snapshot entry that was bound at the start
of the pass — including entries under the removed owner tag — is still
invoked once, in order (removal from the live vector takes effect for
subsequent broadcasts, as the compaction and the counterexample's final
state show). -/
theorem C2_amended_snapshot_dispatch (w : World) (args : List Nat)
    (eff : Eff) (halive : ∀ k a v, (eff k a v).alive = v.alive) :
    (Broadcast eff args w).2 =
      (w.mc.Entries.filter (fun e => e.Delegate.IsBound w.alive)).map
        (fun e => (e, args)) :=
  Broadcast_trace_filter eff args w halive

/-- Witness for C2 (amended), at the self-removal fixture. -/
theorem C2_amended_snapshot_dispatch_witness :
    (Broadcast selfRemoveEff [7] selfRemoveWorld).2 =
      (selfRemoveWorld.mc.Entries.filter
        (fun e => e.Delegate.IsBound selfRemoveWorld.alive)).map
        (fun e => (e, [7])) :=
  C2_amended_snapshot_dispatch selfRemoveWorld [7] selfRemoveEff
    (fun k a v => by
      unfold selfRemoveEff
      split <;> rfl)

/-- C3: a weak-bound entry whose target object is dead before the
broadcast is not invoked during the pass, every other entry that is safe
is still invoked, and immediately after the broadcast returns the
expired entry is no longer present in the delegate. -/
theorem C3_expired_weak_entry (w : World) (args : List Nat) (e : FEntry)
    (i : InstanceBase) (t : Nat) (mth : Option Nat)
    (he : e ∈ w.mc.Entries)
    (hi : e.Delegate.Instance = some i)
    (hk : i.kind = .weak t mth)
    (hdead : w.alive.contains t = false) :
    (e, args) ∉ (Broadcast pureEff args w).2 ∧
    (∀ x ∈ w.mc.Entries, x.Delegate.IsBound w.alive = true →
        (x, args) ∈ (Broadcast pureEff args w).2) ∧
    e ∉ (Broadcast pureEff args w).1.mc.Entries := by
  have hdead2 : t ∉ w.alive := by simpa using hdead
  have hb : e.Delegate.IsBound w.alive = false := by
    simp [TDelegate.IsBound, hi, InstanceBase.IsSafeToExecute, hk, hdead2]
  rw [Broadcast_pureEff_eq]
  refine ⟨?_, ?_, ?_⟩
  · intro hmem
    rcases List.mem_map.mp hmem with ⟨x, hx, hxe⟩
    have hxe2 : x = e := congrArg Prod.fst hxe
    subst hxe2
    have := (List.mem_filter.mp hx).2
    rw [hb] at this
    cases this
  · intro x hx hxb
    exact List.mem_map.mpr ⟨x, List.mem_filter.mpr ⟨hx, hxb⟩, rfl⟩
  · intro hmem
    have := (List.mem_filter.mp hmem).2
    rw [hb] at this
    cases this

/-- Witness for C3: on the concrete world, the expired weak entry is
skipped and dropped while the static entry is invoked. -/
theorem C3_expired_weak_entry_witness :
    (deadWeakEntry, [7]) ∉ (Broadcast pureEff [7] deadWeakWorld).2 ∧
    (∀ x ∈ deadWeakWorld.mc.Entries,
        x.Delegate.IsBound deadWeakWorld.alive = true →
        (x, [7]) ∈ (Broadcast pureEff [7] deadWeakWorld).2) ∧
    deadWeakEntry ∉ (Broadcast pureEff [7] deadWeakWorld).1.mc.Entries :=
  C3_expired_weak_entry deadWeakWorld [7] deadWeakEntry
    ⟨.weak 4 (some 2), ⟨5⟩⟩ 4 (some 2) (by decide) rfl rfl rfl

/-- C9: a snapshot entry shares its instance (bind state) with the live
entry, so as long as no handler effect destroys that entry's underlying
target (its boundness is preserved by every handler effect — removal
from the live vector via `Remove`/`RemoveAll`/`Clear` in particular does
not affect it), an entry of the snapshot that is bound when the pass
starts is still invoked in that same pass. -/
theorem C9_removed_snapshot_entry_invoked (w : World) (args : List Nat)
    (eff : Eff) (e : FEntry)
    (hkeep : ∀ k a v, e.Delegate.IsBound v.alive = true →
        e.Delegate.IsBound (eff k a v).alive = true)
    (he : e ∈ w.mc.Entries)
    (hb : e.Delegate.IsBound w.alive = true) :
    (e, args) ∈ (Broadcast eff args w).2 := by
  have hne : w.mc.Entries.isEmpty = false := by
    cases h0 : w.mc.Entries with
    | nil => rw [h0] at he; cases he
    | cons a l => simp [h0]
  simp only [Broadcast, hne, Bool.false_eq_true, if_false]
  exact broadcastLoop_mem_of_bound eff args e hkeep w.mc.Entries w he hb

/-- Witness for C9: the second owner-`5` entry, removed mid-pass by the
first entry's handler, is nevertheless invoked in that pass. -/
theorem C9_removed_snapshot_entry_invoked_witness :
    (ownerTwoEntry, [7]) ∈ (Broadcast selfRemoveEff [7] selfRemoveWorld).2 :=
  C9_removed_snapshot_entry_invoked selfRemoveWorld [7] selfRemoveEff
    ownerTwoEntry
    (fun k a v h => by
      unfold selfRemoveEff
      split <;> exact h)
    (by decide) rfl

/-- C4: handle generation starts at `1` (so `0` stays the reserved
invalid sentinel); two sequential `GenerateNewID` calls never return
equal values; in every reachable world a freshly generated handle is
non-zero; and in every reachable world the handles stored in the
multicast delegate are pairwise distinct. -/
theorem C4_handle_uniqueness :
    (GenerateNewID GDelegateNextID_init).1 = 1 ∧
    (∀ c : Nat, (GenerateNewID c).1 ≠ (GenerateNewID (GenerateNewID c).2).1) ∧
    (∀ w : World, Reachable w → (GenerateNewID w.counter).1 ≠ 0) ∧
    (∀ w : World, Reachable w →
      w.mc.Entries.Pairwise (fun a b => a.Handle ≠ b.Handle)) := by
  refine ⟨rfl, ?_, ?_, ?_⟩
  · intro c
    simp [GenerateNewID]
  · intro w hw
    have h1 := (reachable_handlesOK hw).1
    simp only [GenerateNewID]
    omega
  · intro w hw
    exact (reachable_handlesOK hw).2.2

/-- Witness for C4 at a world where two entries have been registered. -/
theorem C4_handle_uniqueness_witness :
    (applyOp (applyOp (initWorld []) (Op.addStatic (some 3)))
        (Op.addLambda (some 4))).mc.Entries.Pairwise
      (fun a b => a.Handle ≠ b.Handle) :=
  C4_handle_uniqueness.2.2.2 _
    (Reachable.step _ _ (Reachable.step _ _ (Reachable.init [])))

/-- C6: in every reachable world (whose handles are pairwise distinct),
`Remove h` is the identity when no entry carries handle `h`, and when an
entry `e` carries `h` it removes exactly that single entry, leaving the
entries before and after it untouched and in order. -/
theorem C6_remove_exact (w : World) (h : FDelegateHandle)
    (hw : Reachable w) :
    ((∀ e ∈ w.mc.Entries, e.Handle ≠ h) → w.mc.Remove h = w.mc) ∧
    (∀ e ∈ w.mc.Entries, e.Handle = h →
      ∃ l1 l2, w.mc.Entries = l1 ++ e :: l2 ∧
        (w.mc.Remove h).Entries = l1 ++ l2 ∧
        (∀ x ∈ l1, x.Handle ≠ h) ∧ (∀ x ∈ l2, x.Handle ≠ h)) := by
  have hpair := (reachable_handlesOK hw).2.2
  constructor
  · intro hno
    show (⟨removeFirstEntry h w.mc.Entries⟩ : TMulticastDelegate) = w.mc
    rw [removeFirstEntry_no_match h _ hno]
  · intro e he heq
    exact removeFirstEntry_match h w.mc.Entries hpair e he heq

/-- Witness for C6: removing the handle `1` returned by the first
registration removes exactly that entry. -/
theorem C6_remove_exact_witness :
    ∃ l1 l2,
      (applyOp (applyOp (initWorld []) (Op.addStatic (some 3)))
          (Op.addLambda (some 4))).mc.Entries =
        l1 ++ (⟨⟨1⟩, ⟨some ⟨.static (some 3), ⟨1⟩⟩⟩, none⟩ : FEntry) :: l2 ∧
      ((applyOp (applyOp (initWorld []) (Op.addStatic (some 3)))
          (Op.addLambda (some 4))).mc.Remove ⟨1⟩).Entries = l1 ++ l2 ∧
      (∀ x ∈ l1, x.Handle ≠ (⟨1⟩ : FDelegateHandle)) ∧
      (∀ x ∈ l2, x.Handle ≠ (⟨1⟩ : FDelegateHandle)) :=
  (C6_remove_exact _ ⟨1⟩
      (Reachable.step _ _ (Reachable.step _ _ (Reachable.init [])))).2
    ⟨⟨1⟩, ⟨some ⟨.static (some 3), ⟨1⟩⟩⟩, none⟩ (by decide) rfl

end Delegates
